import Mathlib

/-!
Shallow embedding of the endorphinjs esbuild plugin
(src/endorphin.js and src/utils/hash.js).

External collaborators (node:fs, node:path, node:crypto, sass, typescript,
the endorphin compiler, URLSearchParams, esbuild) are modelled at their
interface boundary: they appear as function-valued fields of the `Env`
structure or as small faithful models of their documented behaviour.
Everything that is code of this repository is translated statement by
statement from the source.

Machine strings are modelled as Lean `String` / `List Char`; JS string
indexing is by UTF-16 unit, which coincides with the character model on
the inputs of interest. JS `Map` objects are modelled as association
lists where `set` prepends and `get` takes the most recent binding.
-/

/-- Lookup in an association list, modelling `Map.get` (most recent binding wins). -/
def lookupAssoc {α : Type} (m : List (String × α)) (k : String) : Option α :=
  match m.find? (fun p => p.1 == k) with
  | some p => some p.2
  | none => none

/-- Insertion into an association list, modelling `Map.set`:
the new binding shadows any older one for lookups. -/
def insertAssoc {α : Type} (m : List (String × α)) (k : String) (v : α) : List (String × α) :=
  (k, v) :: m

theorem lookupAssoc_insert {α : Type} (m : List (String × α)) (k : String) (v : α) :
    lookupAssoc (insertAssoc m k v) k = some v := by
  simp [lookupAssoc, insertAssoc, List.find?]

/-! ## src/utils/hash.js -/

/-- Configured fixed hash length (`const hash_length = 10`). -/
def hash_length : Nat := 10

/-- Per-character action of the `replacements` table used by `toSafe`:
the regex `[+/=]` replaces `+` by `-`, `/` by `_` and removes `=`;
other characters are kept. -/
def safeRepl (c : Char) : Option Char :=
  if c = '+' then some '-' else if c = '/' then some '_' else if c = '=' then none else some c

/-- Embedding of `toSafe` (hash.js lines 42-44): global regex replacement
over the base64 string via the `replacements` table. -/
def toSafe (base64 : String) : String :=
  String.mk (base64.data.filterMap safeRepl)

/-- Embedding of JS `s.substr(0, len)`. -/
def substr (s : String) (len : Nat) : String :=
  String.mk (s.data.take len)

/-- Value computed by `safeBase64Hash` on a miss:
`toSafe(md5.digest(base64)).substr(0, hash_length)`.
The md5-base64 digest (node:crypto, external) is the `digest` parameter. -/
def safeBase64HashPure (digest : String → String) (input : String) : String :=
  substr (toSafe (digest input)) hash_length

/-- State of the module-level `hashes` object of hash.js:
the process-lifetime memo table. -/
abbrev HashState := List (String × String)

/-- Embedding of `safeBase64Hash` (hash.js lines 12-24), with the module-level
`hashes` object passed as explicit state. The JS truthiness test
`if (hashes[input])` treats both an absent binding and an empty string as a miss. -/
def safeBase64Hash (digest : String → String) (input : String) (hashes : HashState) :
    String × HashState :=
  let stored := (lookupAssoc hashes input).getD ""
  if stored ≠ "" then (stored, hashes)
  else
    let hash := safeBase64HashPure digest input
    (hash, insertAssoc hashes input hash)

/-- Characters of the base64 alphabet proper. -/
def isBase64Char (c : Char) : Bool :=
  c.isAlphanum || c == '+' || c == '/'

/-- Identifier-safe characters: base64 alphabet after the `toSafe` substitution. -/
def isSafeChar (c : Char) : Bool :=
  c.isAlphanum || c == '-' || c == '_'

/-- Interface contract of the external md5-base64 digest: a 16-byte md5 digest
encoded in base64 is a 24-character string over the base64 alphabet with at
most two padding characters. -/
def digestSpec (digest : String → String) : Prop :=
  ∀ y, (digest y).data.length = 24 ∧
       (digest y).data.countP (fun c => c == '=') ≤ 2 ∧
       ∀ c ∈ (digest y).data, (isBase64Char c || (c == '=')) = true

/-! ## node:path (external) modelled on posix paths -/

/-- Index of the last occurrence of a character in a list. -/
def lastIdxOf (c : Char) (l : List Char) : Option Nat :=
  ((l.enum.filter (fun p => p.2 = c)).getLast?).map (fun p => p.1)

/-- Model of posix `path.basename(p)`: the part after the last slash. -/
def pathBasename (p : String) : String :=
  String.mk ((p.data.splitOn '/').getLastD [])

/-- Model of posix `path.basename(p, ext)`: the base name with a trailing
`ext` stripped when it is a proper suffix. -/
def pathBasenameExt (p : String) (ext : String) : String :=
  let b := pathBasename p
  if b ≠ ext ∧ ext ≠ "" ∧ List.isSuffixOf ext.data b.data then
    String.mk (b.data.take (b.data.length - ext.data.length))
  else b

/-- Model of posix `path.extname(p)`: substring of the base name from its last
dot; empty for dotless names and leading-dot files. -/
def pathExtname (p : String) : String :=
  let b := (pathBasename p).data
  match lastIdxOf '.' b with
  | none => ""
  | some 0 => ""
  | some i => String.mk (b.drop i)

/-- Model of posix `path.dirname(p)`: everything before the last slash. -/
def pathDirname (p : String) : String :=
  match lastIdxOf '/' p.data with
  | none => "."
  | some 0 => "/"
  | some i => String.mk (p.data.take i)

/-! ## defaultOptions (endorphin.js lines 9-19) -/

/-- Embedding of the default `componentName` function of `defaultOptions`:
the base name without extension, or `path.dirname(id)` when the base name is
the generic index placeholder. -/
def defaultComponentName (id : String) : String :=
  let fileName := pathBasenameExt id (pathExtname id)
  if fileName = "index" then pathDirname id else fileName

/-! ## getLines (endorphin.js lines 342-365) -/

/-- Line span `[start, stop)` into the source text
(the JS field named end is called `stop` here, since end is a Lean keyword). -/
structure Line where
  start : Nat
  stop : Nat
deriving Repr, DecidableEq

/-- Loop body of `getLines`: `start` and `e` are the two cursor variables,
`e` is the JS variable named end. The JS reads `text[end++]`, and on CR
peeks `text[end]` (out-of-range indexing yields undefined, never LF,
modelled by the `getD` default). The two branches of the CRLF test are
written out separately so that the recursion is visibly decreasing. -/
def getLinesGo (text : List Char) (start e : Nat) : List Line :=
  if h : e < text.length then
    let ch := text.get ⟨e, h⟩
    if ch = '\r' ∨ ch = '\n' then
      if ch = '\r' ∧ text.getD (e + 1) ' ' = '\n' then
        ⟨start, e + 2⟩ :: getLinesGo text (e + 2) (e + 2)
      else
        ⟨start, e + 1⟩ :: getLinesGo text (e + 1) (e + 1)
    else
      getLinesGo text start (e + 1)
  else
    if start ≠ e then [⟨start, e⟩] else []
termination_by text.length - e
decreasing_by
  · omega
  · omega
  · omega

/-- Embedding of `getLines`: both cursors start at zero. -/
def getLines (text : List Char) : List Line :=
  getLinesGo text 0 0

/-- Specification predicate: the spans form a consecutive chain from `a` to `b`
with every span nonempty. -/
def chainsFrom (a b : Nat) : List Line → Bool
  | [] => a == b
  | l :: rest => a == l.start && decide (l.start < l.stop) && chainsFrom l.stop b rest

/-- Specification predicate: byte offset `p` lies inside the span. -/
def inSpan (p : Nat) (l : Line) : Bool :=
  decide (l.start ≤ p) && decide (p < l.stop)

/-! ## createMessage (endorphin.js lines 399-424) -/

/-- Location part of an esbuild PartialMessage. -/
structure MsgLocation where
  line : Nat
  column : Int
  lineText : String
  file : String
deriving Repr, DecidableEq

/-- Embedding of esbuild PartialMessage as produced by `createMessage`. -/
structure PartialMessage where
  text : String
  location : MsgLocation
deriving Repr, DecidableEq

/-- Embedding of `createMessage`: the `findIndex` over the line spans uses the
containment test of the source, `line.start >= pos && line.end < pos`,
verbatim; a miss (JS index -1) yields no message. -/
def createMessage (message : String) (pos : Int) (code : String) (file : String) :
    Option PartialMessage :=
  let lines := getLines code.data
  match lines.findIdx? (fun line => decide ((line.start : Int) ≥ pos) &&
      decide ((line.stop : Int) < pos)) with
  | some lineIx =>
      let line := (lines.get? lineIx).getD ⟨0, 0⟩
      some { text := message,
             location := { line := lineIx,
                           column := pos - (line.start : Int),
                           lineText := String.mk ((code.data.drop line.start).take (line.stop - line.start)),
                           file := file } }
  | none => none

/-! ## Cache layer: getCacheKey and isValidEntry (endorphin.js lines 41-79) -/

/-- State owned by the plugin closure around `getCacheKey`: the per-build
`fileKeyCache` map, plus an instrumentation counter of `fs.stat` calls. -/
structure KeyState where
  fileKeyCache : List (String × String)
  statCount : Nat
deriving Repr, DecidableEq

/-- Embedding of `getCacheKey` (endorphin.js lines 49-57). The external
`fs.stat` composition of the token string is the `statIdent` parameter.
Note that the source reads `fileKeyCache` but never writes to it. -/
def getCacheKey (statIdent : String → String) (filePath : String) (ks : KeyState) :
    String × KeyState :=
  match lookupAssoc ks.fileKeyCache filePath with
  | some value => (value, ks)
  | none =>
      let value := statIdent filePath
      (value, { ks with statCount := ks.statCount + 1 })

/-- Cache entry as built by `loadStylesheet`; the `deps` field is optional
because the template entries fed to `isValidEntry` lack it. -/
structure CacheEntry where
  cacheKey : String
  source : String
  deps : Option (List (String × String))
  code : String
deriving Repr, DecidableEq

/-- Dependency loop of `isValidEntry` (lines 70-76): walks the recorded
`(path, key)` pairs, recomputing the current key of each, with early exit
on the first mismatch. -/
def isValidEntryGo (statIdent : String → String) :
    List (String × String) → KeyState → Bool × KeyState
  | [], ks => (true, ks)
  | (k, v) :: rest, ks =>
      if v ≠ (getCacheKey statIdent k ks).1 then (false, (getCacheKey statIdent k ks).2)
      else isValidEntryGo statIdent rest (getCacheKey statIdent k ks).2

/-- Embedding of `isValidEntry` (endorphin.js lines 65-79): the entry is valid
when its own key matches and, if a nonempty `deps` map is recorded, every
recorded dependency key matches the current one. -/
def isValidEntry (statIdent : String → String) (entry : CacheEntry) (cacheKey : String)
    (ks : KeyState) : Bool × KeyState :=
  if entry.cacheKey ≠ cacheKey then (false, ks)
  else match entry.deps with
    | some deps => if deps.length ≠ 0 then isValidEntryGo statIdent deps ks else (true, ks)
    | none => (true, ks)

/-- Current-key value that `getCacheKey` returns over a given memo table. -/
def keyVal (statIdent : String → String) (c : List (String × String)) (p : String) : String :=
  match lookupAssoc c p with
  | some v => v
  | none => statIdent p

/-- Pure value of the validity check over a fixed memo table. -/
def validPure (statIdent : String → String) (c : List (String × String))
    (entry : CacheEntry) (cacheKey : String) : Bool :=
  decide (entry.cacheKey = cacheKey) &&
    (match entry.deps with
     | some deps => deps.all (fun p => decide (p.2 = keyVal statIdent c p.1))
     | none => true)

/-! ## URL codec: splitUrl, getAbsoluteUrl and URLSearchParams (external) -/

/-- Model of URLSearchParams parsing over a query string without percent
escapes: split on ampersands, each piece splitting at its first equals sign;
empty pieces are ignored. -/
def parseQuery (s : String) : List (String × String) :=
  (s.data.splitOn '&').filterMap fun kv =>
    match kv.splitOn '=' with
    | [] => none
    | [k] => if k = [] then none else some (String.mk k, "")
    | k :: rest => some (String.mk k, String.mk (List.intercalate ['='] rest))

/-- Model of `URLSearchParams.get`. -/
def qget (q : List (String × String)) (k : String) : Option String :=
  (q.find? (fun p => p.1 == k)).map (fun p => p.2)

/-- Model of `URLSearchParams.has`. -/
def qhas (q : List (String × String)) (k : String) : Bool :=
  (q.find? (fun p => p.1 == k)).isSome

/-- URLSearchParams ignores a single leading question mark. -/
def stripQ (s : String) : String :=
  if s.data.headD ' ' = '?' then String.mk s.data.tail else s

/-- Embedding of `splitUrl` (endorphin.js lines 391-397): the JS split with
limit 2 keeps only the first two pieces, so a second question mark and
everything after it is dropped from the query. -/
def splitUrl (url : String) : String × List (String × String) :=
  match url.data.splitOn '?' with
  | [] => ("", [])
  | [f] => (String.mk f, [])
  | f :: s :: _ => (String.mk f, parseQuery (String.mk s))

/-- Model of JS `Number()` restricted to the decimal integer strings the
plugin generates for the `i` parameter; `none` stands for NaN, and a
non-integer numeric is irrelevant here. The empty string converts to zero. -/
def natOfDigitsGo : List Char → Nat → Option Nat
  | [], acc => some acc
  | c :: rest, acc =>
      if c.isDigit then natOfDigitsGo rest (acc * 10 + (c.toNat - 48)) else none

/-- Digit-string reading used by `jsNumber`. -/
def natOfDigits (l : List Char) : Option Nat :=
  match l with
  | [] => none
  | _ => natOfDigitsGo l 0

/-- Model of `Number(s)` on the relevant inputs. -/
def jsNumber (s : String) : Option Int :=
  match s.data with
  | [] => some 0
  | '-' :: rest => (natOfDigits rest).map (fun n => -(n : Int))
  | ds => (natOfDigits ds).map Int.ofNat

/-- Decoding of the `i` parameter (endorphin.js line 159):
`query.has('i') ? Number(query.get('i')) : -1`. -/
def decodeIdx (q : List (String × String)) : Option Int :=
  if qhas q "i" then jsNumber ((qget q "i").getD "") else some (-1)

/-- JS array indexing `xs[i]` with a possibly negative or NaN index. -/
def indexGet {α : Type} (xs : List α) (i : Option Int) : Option α :=
  match i with
  | none => none
  | some n => if 0 ≤ n then xs.get? n.toNat else none

/-- JS truthiness of an optional string: undefined and the empty string are falsy. -/
def truthyOpt (c : Option String) : Bool :=
  match c with
  | none => false
  | some s => s ≠ ""

/-! ## External collaborator interfaces and the environment -/

/-- Resource node of the parsed template AST (ENDSourceNode projection). -/
structure ENDSourceNode where
  url : String
  content : Option String
  mime : Option String
deriving Repr, DecidableEq

/-- Result of the external endorphin parser, at its interface boundary:
the stylesheet and script nodes of the AST, plus the `(message, pos)` pairs
it reports through the warning callback. -/
structure ParseResult where
  stylesheets : List ENDSourceNode
  scripts : List ENDSourceNode
  warnCalls : List (String × Int)
deriving Repr, DecidableEq

/-- Result of the external endorphin code generator, including the
`(message, pos)` pairs it reports through the warning callback. -/
structure GenerateResult where
  code : String
  map : Option String
  warnCalls : List (String × Int)
deriving Repr, DecidableEq

/-- Result of the external sass compiler: css text, optional source map
(serialized, opaque) and the pathnames of the loaded urls. -/
structure SassResult where
  css : String
  sourceMap : Option String
  loadedUrls : List String
deriving Repr, DecidableEq

/-- Shape-polymorphic return of the external `scopeCSS` transform:
either plain code or a record with code and map. -/
inductive ScopeCSSResult
  | plain (code : String)
  | withMap (code : String) (map : String)
deriving Repr, DecidableEq

/-- Compile configuration handed to the external parser and generator
(endorphin.js lines 443-454). The user `options.template` passthrough spread
is opaque extra configuration and is not modelled field by field. -/
structure EndorphinCompileOptions where
  module : String
  cssScope : String
  component : String
deriving Repr, DecidableEq

/-- Recognized plugin options that the modelled code paths consult. -/
structure EndorphinPluginOptions where
  componentName : Option (String → String)

/-- Environment of external collaborators: filesystem, node:path normalize,
parser, generator, sass, the css scoping transform, the md5-base64 digest,
base64 encoding of a serialized source map, and the process root. -/
structure Env where
  statIdent : String → String
  readFile : String → String
  pathNormalize : String → String
  parse : String → String → EndorphinCompileOptions → ParseResult
  generate : ParseResult → EndorphinCompileOptions → GenerateResult
  sassCompile : String → String → Bool → SassResult
  scopeCSS : String → String → String → Option String → Option String → ScopeCSSResult
  digest : String → String
  b64 : String → String
  root : String

/-! ## Scope token derivation (endorphin.js lines 217-243) -/

/-- Embedding of `stripRoot`: drops a matching root whose following slash is
kept by the `slice` (the sliced string keeps its leading slash). -/
def stripRoot (normalizedFilename normalizedRoot : String) : String :=
  if List.isPrefixOf (normalizedRoot.data ++ ['/']) normalizedFilename.data then
    String.mk (normalizedFilename.data.drop normalizedRoot.data.length)
  else normalizedFilename

/-- Embedding of `normalize` (the name normalize is taken by Mathlib):
node path normalization (external) then root strip. -/
def normalizeFilename (env : Env) (filename : String) (normalizedRoot : String) : String :=
  stripRoot (env.pathNormalize filename) normalizedRoot

/-- Embedding of `createScopeSuffix` (endorphin.js lines 241-243). The source
calls the memoized `safeBase64Hash`; the module memo is only ever written with
the freshly computed value, so the returned token always equals the pure
computation (see safeBase64Hash_pure below). -/
def createScopeSuffix (digest : String → String) (filePath : String) : String :=
  "e" ++ safeBase64HashPure digest filePath

/-- Embedding of `sourceMapToDataURL` (endorphin.js lines 248-251); the
JSON serialization composed with the base64 encoding is the external `b64`. -/
def sourceMapToDataURL (env : Env) (sm : String) : String :=
  "data:application/json;charset=utf-8;base64," ++ env.b64 sm

/-! ## processStylesheet (endorphin.js lines 253-295) -/

/-- Options record passed to `processStylesheet`. -/
structure ProcessStylesheetOptions where
  file : String
  scope : String
  type : String
  sourceMap : Bool
  classScope : Option String

/-- Return value of `processStylesheet`. -/
structure ProcessedStylesheet where
  deps : List String
  code : String
deriving Repr, DecidableEq

/-- Embedding of `processStylesheet`: optional sass pass collecting loaded
urls as dependencies, then the scoping transform, then the source map is
appended as a trailing data-url comment when present. -/
def processStylesheet (env : Env) (source : String) (options : ProcessStylesheetOptions) :
    ProcessedStylesheet :=
  let code := source
  let step1 : String × Option String × List String :=
    if options.type = "scss" then
      let compiled := env.sassCompile code options.file options.sourceMap
      (compiled.css, compiled.sourceMap, compiled.loadedUrls)
    else (code, none, [])
  let step2 : String × Option String :=
    match env.scopeCSS step1.1 options.scope options.file step1.2.1 options.classScope with
    | .plain c => (c, step1.2.1)
    | .withMap c m => (c, some m)
  let codeOut :=
    match step2.2 with
    | some m => step2.1 ++ "\n/*# sourceMappingURL=" ++ sourceMapToDataURL env m ++ " */"
    | none => step2.1
  { deps := step1.2.2, code := codeOut }

/-! ## compileTemplate (endorphin.js lines 367-377 and 426-491) -/

/-- Resource record stored on a template entry. -/
structure ComponentResource where
  url : String
  content : Option String
  type : Option String
deriving Repr, DecidableEq

/-- Embedding of `getComponentResource` (endorphin.js lines 367-377). -/
def getComponentResource (node : ENDSourceNode) : ComponentResource :=
  { url := node.url, content := node.content, type := node.mime }

/-- Template cache entry as returned by `compileTemplate`
(endorphin.js lines 480-491). -/
structure TemplateCacheEntry where
  cacheKey : String
  styles : List ComponentResource
  scripts : List ComponentResource
  source : String
  warnings : List PartialMessage
  styleCache : List (String × CacheEntry)
  code : String
  map : Option String
deriving Repr, DecidableEq

/-- View of a template entry as the duck-typed argument of `isValidEntry`:
the object carries no deps property. -/
def TemplateCacheEntry.asCacheEntry (t : TemplateCacheEntry) : CacheEntry :=
  { cacheKey := t.cacheKey, source := t.source, deps := none, code := t.code }

/-- Compile configuration built in `compileTemplate` (lines 443-454): fixed
module name, derived scope token, and the pluggable naming function applied
to the normalized file name (empty when the option is absent). -/
def templateCompileOpt (env : Env) (options : EndorphinPluginOptions)
    (normalizedFilename : String) : EndorphinCompileOptions :=
  { module := "endorphin",
    cssScope := createScopeSuffix env.digest normalizedFilename,
    component := match options.componentName with
      | some f => f normalizedFilename
      | none => "" }

/-- Header lines emitted for inline scripts (endorphin.js lines 463-469):
a re-export from a synthetic componentScript url per inline script, appended
to the accumulator in list order. -/
def scriptsHeader (filePath : String) (scripts : List ComponentResource)
    (header0 : String) : String :=
  scripts.enum.foldl (fun header p =>
    if truthyOpt p.2.content then
      header ++ "export * from \"" ++ filePath ++ "?type=componentScript&i=" ++
        toString p.1 ++ "\";\n"
    else header) header0

/-- Header lines emitted for stylesheets (endorphin.js lines 471-475):
an import of a componentStylesheet url per stylesheet, with an index suffix
only for inline ones. -/
def stylesHeader (cssScope : String) (styles : List ComponentResource)
    (header0 : String) : String :=
  styles.enum.foldl (fun header p =>
    let suffix := if truthyOpt p.2.content then "&i=" ++ toString p.1 else ""
    header ++ "import \"" ++ p.2.url ++ "?type=componentStylesheet&scope=" ++
      cssScope ++ suffix ++ "\";\n") header0

/-- The destructive `parsed.ast.scripts[i].content = undefined` writes of
lines 464-468: the content of every inline script node is cleared before the
generator runs. -/
def clearInlineScripts (parsed : ParseResult) : ParseResult :=
  { parsed with scripts := parsed.scripts.map (fun n =>
      if truthyOpt n.content then { n with content := none } else n) }

/-- Embedding of `compileTemplate` (endorphin.js lines 426-491). Warnings are
the callback payloads of parser and generator, converted by `createMessage`
and kept when conversion succeeds. The returned entry always carries a fresh
empty style sub-cache. -/
def compileTemplate (env : Env) (options : EndorphinPluginOptions)
    (filePath : String) (cacheKey : String) : TemplateCacheEntry :=
  let root := env.root
  let source := env.readFile filePath
  let normalizedFilename := normalizeFilename env filePath root
  let compileOpt := templateCompileOpt env options normalizedFilename
  let parsed := env.parse source filePath compileOpt
  let styles := parsed.stylesheets.map getComponentResource
  let scripts := parsed.scripts.map getComponentResource
  let header := stylesHeader compileOpt.cssScope styles (scriptsHeader filePath scripts "")
  let result := env.generate (clearInlineScripts parsed) compileOpt
  let warnings := (parsed.warnCalls ++ result.warnCalls).filterMap
    (fun w => createMessage w.1 w.2 source filePath)
  { cacheKey := cacheKey, styles := styles, scripts := scripts, source := source,
    warnings := warnings, styleCache := [],
    code := header ++ result.code, map := result.map }

/-! ## Load orchestrator (endorphin.js lines 99-214) -/

/-- Response shape returned to esbuild from the onLoad callbacks. -/
structure OnLoadResult where
  contents : String
  loader : String
  warnings : List PartialMessage
  watchFiles : Option (List String)
deriving Repr, DecidableEq

/-- Embedding of `toCSSOnLoad` (endorphin.js lines 493-509). -/
def toCSSOnLoad (cacheEntry : CacheEntry) : OnLoadResult :=
  { contents := cacheEntry.code,
    loader := "css",
    warnings := [],
    watchFiles := cacheEntry.deps.map (fun ds => ds.map (fun p => p.1)) }

/-- State threaded through `loadStylesheet`: the cache map it was handed
(either the shared styleCache or the style sub-cache of one template), the
getCacheKey state, and an instrumentation counter of processStylesheet runs. -/
structure LSState where
  cache : List (String × CacheEntry)
  ks : KeyState
  processCount : Nat
deriving Repr, DecidableEq

/-- Threaded build of the deps map (endorphin.js lines 126-131):
each processed dependency is paired with its current cache key. -/
def depsOf (statIdent : String → String) :
    List String → KeyState → List (String × String) × KeyState
  | [], ks => ([], ks)
  | d :: rest, ks =>
      let r := depsOf statIdent rest (getCacheKey statIdent d ks).2
      ((d, (getCacheKey statIdent d ks).1) :: r.1, r.2)

/-- Embedding of `loadStylesheet` (endorphin.js lines 99-143). A null source
argument makes it read the file; on miss or invalid entry it runs the
stylesheet pipeline, records dependency keys, and stores the entry under the
url. It always returns the entry it looked up or built. -/
def loadStylesheet (env : Env) (sourcemap : Bool) (classScope : Option String)
    (url : String) (source : Option String) (ty : String) (st : LSState) :
    Option CacheEntry × LSState :=
  let cacheEntry := lookupAssoc st.cache url
  let file := (splitUrl url).1
  let query := (splitUrl url).2
  let cacheKey := (getCacheKey env.statIdent file st.ks).1
  let ks1 := (getCacheKey env.statIdent file st.ks).2
  let vr : Bool × KeyState :=
    match cacheEntry with
    | none => (false, ks1)
    | some e => isValidEntry env.statIdent e cacheKey ks1
  if vr.1 then
    (cacheEntry, { st with ks := vr.2 })
  else
    let src := match source with
      | none => env.readFile file
      | some s => s
    let processed := processStylesheet env src
      { file := file, scope := (qget query "scope").getD "", type := ty,
        sourceMap := sourcemap, classScope := classScope }
    let deps := (depsOf env.statIdent processed.deps vr.2).1
    let ks3 := (depsOf env.statIdent processed.deps vr.2).2
    let entry : CacheEntry :=
      { cacheKey := cacheKey, source := src, deps := some deps, code := processed.code }
    (some entry,
     { cache := insertAssoc st.cache url entry, ks := ks3,
       processCount := st.processCount + 1 })

/-- Plugin state threaded through the html onLoad callback: the template
cache, the getCacheKey state, and instrumentation counters for
compileTemplate runs, processStylesheet runs and console warnings. -/
structure St where
  templateCache : List (String × TemplateCacheEntry)
  ks : KeyState
  compileCount : Nat
  processCount : Nat
  warnCount : Nat
deriving Repr, DecidableEq

/-- Main-template path of the html onLoad callback (endorphin.js lines
192-204): current identity, validity check against the cached entry,
recompile and store on miss or invalidation, respond with the entry code
and warnings as a js module. -/
def onLoadHtmlMain (env : Env) (options : EndorphinPluginOptions) (path : String)
    (st : St) : Except String (Option OnLoadResult) × St :=
  let compiledTemplate := lookupAssoc st.templateCache path
  let cacheKey := (getCacheKey env.statIdent path st.ks).1
  let ks1 := (getCacheKey env.statIdent path st.ks).2
  let recompile := fun (ks : KeyState) =>
    let fresh := compileTemplate env options path cacheKey
    ((Except.ok (some { contents := fresh.code, warnings := fresh.warnings,
                        loader := "js", watchFiles := none })
        : Except String (Option OnLoadResult)),
     { st with
       templateCache := insertAssoc st.templateCache path fresh,
       ks := ks, compileCount := st.compileCount + 1 })
  match compiledTemplate with
  | none => recompile ks1
  | some t =>
    let vr := isValidEntry env.statIdent t.asCacheEntry cacheKey ks1
    if vr.1 then
      (Except.ok (some { contents := t.code, warnings := t.warnings,
                         loader := "js", watchFiles := none }),
       { st with ks := vr.2 })
    else recompile vr.2

/-- Sub-resource path of the html onLoad callback (endorphin.js lines
156-189), entered with a nonempty suffix and an existing template entry.
In the componentStylesheet branch the warning sits on the branch where
loadStylesheet returned nothing, and a missing or empty inline style falls
through silently; in the componentScript branch the warning sits on the
missing-content branch. The style sub-cache is a Map owned by the template
entry, so its mutation is written back through the template cache. -/
def onLoadHtmlSuffix (env : Env) (sourcemap : Bool) (classScope : Option String)
    (path suffix : String) (tmpl : TemplateCacheEntry) (st : St) :
    Except String (Option OnLoadResult) × St :=
  let query := parseQuery (stripQ suffix)
  let ty := qget query "type"
  let i := decodeIdx query
  if ty = some "componentStylesheet" then
    match indexGet tmpl.styles i with
    | some style =>
      if truthyOpt style.content then
        let url := path ++ suffix
        let lr := loadStylesheet env sourcemap classScope url style.content
          (if style.type = some "scss" then "scss" else "css")
          { cache := tmpl.styleCache, ks := st.ks, processCount := st.processCount }
        let st1 : St :=
          { st with
            templateCache := insertAssoc st.templateCache path
              { tmpl with styleCache := lr.2.cache },
            ks := lr.2.ks, processCount := lr.2.processCount }
        match lr.1 with
        | some ce => (Except.ok (some (toCSSOnLoad ce)), st1)
        | none => (Except.ok none, { st1 with warnCount := st1.warnCount + 1 })
      else (Except.ok none, st)
    | none => (Except.ok none, st)
  else if ty = some "componentScript" then
    match indexGet tmpl.scripts i with
    | some script =>
      if truthyOpt script.content then
        (Except.ok (some { contents := script.content.getD "", warnings := [],
                           loader := if script.type = some "ts" ∨ script.type = some "typescript"
                             then "ts" else "js",
                           watchFiles := none }), st)
      else (Except.ok none, { st with warnCount := st.warnCount + 1 })
    | none => (Except.ok none, { st with warnCount := st.warnCount + 1 })
  else (Except.ok none, st)

/-- Embedding of the html onLoad callback (endorphin.js lines 149-204):
a nonempty suffix requires an already-compiled template entry (fatal error
otherwise) and routes to the sub-resource handler; an empty suffix routes to
the main-template path. -/
def onLoadHtml (env : Env) (options : EndorphinPluginOptions) (sourcemap : Bool)
    (classScope : Option String) (path suffix : String) (st : St) :
    Except String (Option OnLoadResult) × St :=
  let compiledTemplate := lookupAssoc st.templateCache path
  if suffix ≠ "" then
    match compiledTemplate with
    | none => (Except.error ("Unable to find parsed tamplate for " ++ path), st)
    | some tmpl => onLoadHtmlSuffix env sourcemap classScope path suffix tmpl st
  else onLoadHtmlMain env options path st

/-- Embedding of the css onLoad callback (endorphin.js lines 206-212):
direct stylesheet requests go through loadStylesheet with the shared style
cache, the type inferred from the file extension. -/
def onLoadCss (env : Env) (sourcemap : Bool) (classScope : Option String)
    (path suffix : String) (st : LSState) : Option OnLoadResult × LSState :=
  let url := path ++ suffix
  let file := (splitUrl url).1
  let lr := loadStylesheet env sourcemap classScope url none
    (if pathExtname file = ".scss" then "scss" else "css") st
  (lr.1.map toCSSOnLoad, lr.2)

/-- Embedding of the build start callback (endorphin.js lines 145-147):
clears the per-build file key memo. -/
def onStart (st : St) : St :=
  { st with ks := { fileKeyCache := [], statCount := st.ks.statCount } }

/-! ## Helper lemmas about the key state -/

theorem getCacheKey_fileKeyCache (f : String → String) (p : String) (ks : KeyState) :
    ((getCacheKey f p ks).2).fileKeyCache = ks.fileKeyCache := by
  unfold getCacheKey
  cases lookupAssoc ks.fileKeyCache p <;> rfl

theorem getCacheKey_val (f : String → String) (p : String) (ks : KeyState) :
    (getCacheKey f p ks).1 = keyVal f ks.fileKeyCache p := by
  unfold getCacheKey keyVal
  cases lookupAssoc ks.fileKeyCache p <;> rfl

theorem isValidEntryGo_fileKeyCache (f : String → String) (l : List (String × String)) :
    ∀ ks : KeyState, ((isValidEntryGo f l ks).2).fileKeyCache = ks.fileKeyCache := by
  induction l with
  | nil => intro ks; rfl
  | cons kv rest ih =>
    intro ks
    obtain ⟨k, v⟩ := kv
    unfold isValidEntryGo
    by_cases h : v = (getCacheKey f k ks).1
    · simp only [h, ne_eq, not_true_eq_false, if_false, ih, getCacheKey_fileKeyCache]
    · simp only [ne_eq, h, not_false_eq_true, if_true, getCacheKey_fileKeyCache]

theorem isValidEntryGo_val (f : String → String) (l : List (String × String)) :
    ∀ ks : KeyState,
      (isValidEntryGo f l ks).1 = l.all (fun p => decide (p.2 = keyVal f ks.fileKeyCache p.1)) := by
  induction l with
  | nil => intro ks; rfl
  | cons kv rest ih =>
    intro ks
    obtain ⟨k, v⟩ := kv
    unfold isValidEntryGo
    rw [getCacheKey_val]
    by_cases h : v = keyVal f ks.fileKeyCache k
    · simp [h, ih, getCacheKey_fileKeyCache]
    · simp [h]

theorem isValidEntry_fileKeyCache (f : String → String) (e : CacheEntry) (k : String)
    (ks : KeyState) : ((isValidEntry f e k ks).2).fileKeyCache = ks.fileKeyCache := by
  unfold isValidEntry
  by_cases h : e.cacheKey = k
  · simp only [h, ne_eq, not_true_eq_false, if_false]
    cases hd : e.deps with
    | none => rfl
    | some deps =>
      by_cases hl : deps.length = 0
      · simp [hl]
      · simp [hl, isValidEntryGo_fileKeyCache]
  · simp [h]

theorem isValidEntry_val (f : String → String) (e : CacheEntry) (k : String) (ks : KeyState) :
    (isValidEntry f e k ks).1 = validPure f ks.fileKeyCache e k := by
  unfold isValidEntry validPure
  by_cases h : e.cacheKey = k
  · simp only [h, ne_eq, not_true_eq_false, if_false, decide_True, Bool.true_and]
    cases hd : e.deps with
    | none => rfl
    | some deps =>
      by_cases hl : deps.length = 0
      · have : deps = [] := List.length_eq_zero.mp hl
        simp [hl, this]
      · simp [hl, isValidEntryGo_val]
  · simp [h]

theorem depsOf_fileKeyCache (f : String → String) (l : List String) :
    ∀ ks : KeyState, ((depsOf f l ks).2).fileKeyCache = ks.fileKeyCache := by
  induction l with
  | nil => intro ks; rfl
  | cons d rest ih =>
    intro ks
    unfold depsOf
    simp only [ih, getCacheKey_fileKeyCache]

theorem depsOf_val (f : String → String) (l : List String) :
    ∀ ks : KeyState,
      (depsOf f l ks).1 = l.map (fun d => (d, keyVal f ks.fileKeyCache d)) := by
  induction l with
  | nil => intro ks; rfl
  | cons d rest ih =>
    intro ks
    unfold depsOf
    simp only [List.map_cons, List.cons.injEq, Prod.mk.injEq, true_and]
    constructor
    · exact getCacheKey_val f d ks
    · rw [ih, getCacheKey_fileKeyCache]

/-- CLAIM C1 — Cache-entry validation is an iff: over the (always empty, see
getCacheKey) per-pass memo, `isValidEntry entry key` returns true exactly when
the entry key matches the current primary key and every recorded dependency
key matches that dependency current identity. -/
theorem isValidEntry_iff_claim (f : String → String) (entry : CacheEntry)
    (cacheKey : String) (n : Nat) :
    (isValidEntry f entry cacheKey ⟨[], n⟩).1 = true ↔
      (entry.cacheKey = cacheKey ∧ ∀ p ∈ entry.deps.getD [], f p.1 = p.2) := by
  rw [isValidEntry_val]
  unfold validPure
  have hkv : ∀ p : String, keyVal f (⟨[], n⟩ : KeyState).fileKeyCache p = f p := by
    intro p; rfl
  cases hd : entry.deps with
  | none =>
    simp [hd]
  | some deps =>
    simp only [hd, Option.getD_some, Bool.and_eq_true, decide_eq_true_eq, List.all_eq_true]
    constructor
    · rintro ⟨h1, h2⟩
      exact ⟨h1, fun p hp => ((h2 p hp).symm ▸ (hkv p.1).symm) ▸ rfl⟩
    · rintro ⟨h1, h2⟩
      refine ⟨h1, fun p hp => ?_⟩
      rw [hkv p.1]
      exact (h2 p hp).symm

/-- Witness for C1 at a concrete entry with one recorded dependency. -/
theorem isValidEntry_iff_claim_witness :
    (isValidEntry (fun _ => "1:5") ⟨"1:5", "src", some [("/d.css", "1:5")], "out"⟩
        "1:5" ⟨[], 0⟩).1 = true ↔
      ((⟨"1:5", "src", some [("/d.css", "1:5")], "out"⟩ : CacheEntry).cacheKey = "1:5" ∧
        ∀ p ∈ (⟨"1:5", "src", some [("/d.css", "1:5")], "out"⟩ : CacheEntry).deps.getD [],
          (fun _ : String => "1:5") p.1 = p.2) :=
  isValidEntry_iff_claim (fun _ => "1:5") ⟨"1:5", "src", some [("/d.css", "1:5")], "out"⟩ "1:5" 0

/-- CLAIM C2 — the per-pass identity memo is never written: starting from the
cleared per-pass state, a second `getCacheKey` call for the same path performs
a second `fs.stat` (the counter reaches two) and the memo map is still empty,
because the source never stores the composed token. -/
theorem getCacheKey_never_memoizes :
    ((getCacheKey (fun _ => "1:100") "/a.html" ⟨[], 0⟩).2.statCount = 1 ∧
      (getCacheKey (fun _ => "1:100") "/a.html"
        (getCacheKey (fun _ => "1:100") "/a.html" ⟨[], 0⟩).2).2.statCount = 2) ∧
    (getCacheKey (fun _ => "1:100") "/a.html"
      (getCacheKey (fun _ => "1:100") "/a.html" ⟨[], 0⟩).2).2.fileKeyCache = [] :=
  ⟨⟨rfl, rfl⟩, rfl⟩

/-! ## Properties of the line scan -/

theorem getLinesGo_chains (text : List Char) (s e : Nat) :
    s ≤ e → e ≤ text.length → chainsFrom s text.length (getLinesGo text s e) = true := by
  induction s, e using getLinesGo.induct text with
  | case1 s e h ch hnl hcrlf ih =>
    intro hse hel
    have hlen : e + 1 < text.length := by
      by_contra hc
      push_neg at hc
      rw [List.getD_eq_default _ _ hc] at hcrlf
      exact absurd hcrlf.2 (by decide)
    rw [getLinesGo]
    rw [dif_pos h, if_pos hnl, if_pos hcrlf]
    simp only [chainsFrom, beq_self_eq_true, Bool.true_and, Bool.and_eq_true,
      decide_eq_true_eq]
    exact ⟨by omega, ih (Nat.le_refl _) (by omega)⟩
  | case2 s e h ch hnl hcrlf ih =>
    intro hse hel
    rw [getLinesGo]
    rw [dif_pos h, if_pos hnl, if_neg hcrlf]
    simp only [chainsFrom, beq_self_eq_true, Bool.true_and, Bool.and_eq_true,
      decide_eq_true_eq]
    exact ⟨by omega, ih (Nat.le_refl _) (by omega)⟩
  | case3 s e h ch hnl ih =>
    intro hse hel
    rw [getLinesGo]
    rw [dif_pos h, if_neg hnl]
    exact ih (by omega) (by omega)
  | case4 s e h hne =>
    intro hse hel
    rw [getLinesGo]
    rw [dif_neg h, if_pos hne]
    simp only [chainsFrom, Bool.and_eq_true, beq_iff_eq, decide_eq_true_eq,
      eq_self_iff_true, true_and]
    omega
  | case5 s e h hne =>
    intro hse hel
    rw [getLinesGo]
    rw [dif_neg h, if_neg hne]
    simp only [chainsFrom, beq_iff_eq]
    omega

theorem chainsFrom_mem_lt :
    ∀ (l : List Line) (a b : Nat), chainsFrom a b l = true →
      ∀ x ∈ l, x.start < x.stop := by
  intro l
  induction l with
  | nil => intro a b _ x hx; exact absurd hx (List.not_mem_nil x)
  | cons hd rest ih =>
    intro a b hch x hx
    simp only [chainsFrom, Bool.and_eq_true, beq_iff_eq, decide_eq_true_eq] at hch
    rcases List.mem_cons.mp hx with rfl | hx
    · exact hch.1.2
    · exact ih hd.stop b hch.2 x hx

theorem chainsFrom_countP_zero :
    ∀ (l : List Line) (m b p : Nat), chainsFrom m b l = true → p < m →
      l.countP (inSpan p) = 0 := by
  intro l
  induction l with
  | nil => intro m b p _ _; rfl
  | cons hd rest ih =>
    intro m b p hch hp
    simp only [chainsFrom, Bool.and_eq_true, beq_iff_eq, decide_eq_true_eq] at hch
    rw [List.countP_cons]
    have hhd : inSpan p hd = false := by
      have h1 : ¬ hd.start ≤ p := by omega
      simp [inSpan, h1]
    rw [hhd]
    rw [if_neg Bool.false_ne_true, Nat.add_zero]
    exact ih hd.stop b p hch.2 (by omega)

theorem chainsFrom_countP_one :
    ∀ (l : List Line) (a b p : Nat), chainsFrom a b l = true → a ≤ p → p < b →
      l.countP (inSpan p) = 1 := by
  intro l
  induction l with
  | nil =>
    intro a b p hch hap hpb
    simp only [chainsFrom, beq_iff_eq] at hch
    omega
  | cons hd rest ih =>
    intro a b p hch hap hpb
    simp only [chainsFrom, Bool.and_eq_true, beq_iff_eq, decide_eq_true_eq] at hch
    rw [List.countP_cons]
    by_cases hp : p < hd.stop
    · have hhd : inSpan p hd = true := by
        have h1 : hd.start ≤ p := by omega
        simp [inSpan, h1, hp]
      rw [hhd, chainsFrom_countP_zero rest hd.stop b p hch.2 hp]
      simp
    · have hhd : inSpan p hd = false := by
        simp [inSpan, hp]
      rw [hhd]
      rw [if_neg Bool.false_ne_true, Nat.add_zero]
      exact ih hd.stop b p hch.2 (by omega) hpb

theorem findIdx?_eq_none_of_all {α : Type} (p : α → Bool) :
    ∀ (l : List α) (i : Nat), (∀ x ∈ l, p x = false) → l.findIdx? p i = none := by
  intro l
  induction l with
  | nil => intro i _; rfl
  | cons hd rest ih =>
    intro i hall
    rw [List.findIdx?_cons]
    rw [hall hd (List.mem_cons_self hd rest)]
    simp only [Bool.false_eq_true, if_false]
    exact ih (i + 1) (fun x hx => hall x (List.mem_cons_of_mem hd hx))

/-- CLAIM C10 — the spans returned by the line scan partition the text:
for the empty string the list is empty; otherwise the spans are nonempty,
consecutive, start at offset zero and end at the text length; consequently
every byte offset strictly below the length lies in exactly one span. -/
theorem getLines_partition (text : List Char) :
    (text = [] → getLines text = []) ∧
    chainsFrom 0 text.length (getLines text) = true ∧
    ∀ p, p < text.length → (getLines text).countP (inSpan p) = 1 := by
  refine ⟨?_, ?_, ?_⟩
  · intro h
    subst h
    rw [getLines, getLinesGo]
    simp
  · exact getLinesGo_chains text 0 0 (Nat.le_refl 0) (Nat.zero_le _)
  · intro p hp
    exact chainsFrom_countP_one (getLines text) 0 text.length p
      (getLinesGo_chains text 0 0 (Nat.le_refl 0) (Nat.zero_le _)) (Nat.zero_le p) hp

/-- Witness for C10 on the empty text and on a two-line text at offset three. -/
theorem getLines_partition_witness :
    getLines ([] : List Char) = [] ∧
    chainsFrom 0 "ab\ncd".data.length (getLines "ab\ncd".data) = true ∧
    (getLines "ab\ncd".data).countP (inSpan 3) = 1 :=
  ⟨(getLines_partition []).1 rfl,
   (getLines_partition "ab\ncd".data).2.1,
   (getLines_partition "ab\ncd".data).2.2 3 (by decide)⟩

/-- CLAIM C4 — the warning collector drops every diagnostic: the containment
test of the findIndex call, `line.start >= pos && line.end < pos` verbatim
from the source, demands stop < pos and pos ≤ start on a span with
start < stop, which is impossible, so `createMessage` returns nothing for
every message, offset, source text and file. -/
theorem createMessage_always_none (message : String) (pos : Int) (code : String)
    (file : String) : createMessage message pos code file = none := by
  have hchains := getLinesGo_chains code.data 0 0 (Nat.le_refl 0) (Nat.zero_le _)
  have hall : ∀ l ∈ getLines code.data,
      (decide ((l.start : Int) ≥ pos) && decide ((l.stop : Int) < pos)) = false := by
    intro l hl
    have hlt := chainsFrom_mem_lt (getLines code.data) 0 code.data.length hchains l hl
    by_cases h1 : (l.start : Int) ≥ pos
    · have h2 : ¬ ((l.stop : Int) < pos) := by omega
      simp [h1, h2]
    · simp [h1]
  have hnone := findIdx?_eq_none_of_all _ (getLines code.data) 0 hall
  simp [createMessage, hnone]

theorem filterMap_safeRepl_length :
    ∀ l : List Char, (l.filterMap safeRepl).length = l.length - l.countP (fun c => c == '=') := by
  intro l
  induction l with
  | nil => rfl
  | cons c rest ih =>
    have hle := List.countP_le_length (fun x => x == '=') (l := rest)
    rw [List.countP_cons, List.length_cons]
    by_cases h3 : c = '='
    · subst h3
      rw [List.filterMap_cons_none (show safeRepl '=' = none by decide)]
      rw [show (('=' : Char) == '=') = true by decide]
      rw [if_pos rfl]
      omega
    · have hcnt : (c == '=') = false := by simp [h3]
      rw [hcnt, if_neg Bool.false_ne_true]
      by_cases h1 : c = '+'
      · subst h1
        rw [List.filterMap_cons_some (show safeRepl '+' = some '-' by decide)]
        rw [List.length_cons]
        omega
      · by_cases h2 : c = '/'
        · subst h2
          rw [List.filterMap_cons_some (show safeRepl '/' = some '_' by decide)]
          rw [List.length_cons]
          omega
        · rw [List.filterMap_cons_some
            (show safeRepl c = some c by unfold safeRepl; rw [if_neg h1, if_neg h2, if_neg h3])]
          rw [List.length_cons]
          omega

theorem toSafe_chars (s : String)
    (hs : ∀ c ∈ s.data, (isBase64Char c || (c == '=')) = true) :
    ∀ c ∈ (toSafe s).data, isSafeChar c = true := by
  intro c hc
  have hc2 : c ∈ s.data.filterMap safeRepl := hc
  rcases List.mem_filterMap.mp hc2 with ⟨c0, hc0, hrepl⟩
  have h0 := hs c0 hc0
  unfold safeRepl at hrepl
  by_cases h1 : c0 = '+'
  · rw [if_pos h1] at hrepl
    cases hrepl
    decide
  · rw [if_neg h1] at hrepl
    by_cases h2 : c0 = '/'
    · rw [if_pos h2] at hrepl
      cases hrepl
      decide
    · rw [if_neg h2] at hrepl
      by_cases h3 : c0 = '='
      · rw [if_pos h3] at hrepl
        cases hrepl
      · rw [if_neg h3] at hrepl
        cases hrepl
        have halnum : c.isAlphanum = true := by
          simp only [isBase64Char, Bool.or_eq_true, beq_iff_eq] at h0
          rcases h0 with ((h | h) | h) | h
          · exact h
          · exact absurd h h1
          · exact absurd h h2
          · exact absurd h h3
        simp [isSafeChar, halnum]

theorem safeBase64Hash_fresh (digest : String → String) (input : String) (hs : HashState)
    (h : lookupAssoc hs input = none) :
    safeBase64Hash digest input hs =
      (safeBase64HashPure digest input, insertAssoc hs input (safeBase64HashPure digest input)) := by
  unfold safeBase64Hash
  rw [h]
  simp

theorem digestSpec_const : digestSpec (fun _ => "ABCDEFGHIJKLMNOPQRSTUV==") := by
  intro y
  constructor
  · show ("ABCDEFGHIJKLMNOPQRSTUV==" : String).data.length = 24
    decide
  constructor
  · show List.countP (fun c => c == '=') ("ABCDEFGHIJKLMNOPQRSTUV==" : String).data ≤ 2
    decide
  · show ∀ c ∈ ("ABCDEFGHIJKLMNOPQRSTUV==" : String).data, (isBase64Char c || (c == '=')) = true
    decide

/-- CLAIM C7 — fingerprint determinism and format: starting from the empty
process memo, a repeated `safeBase64Hash` call for the same input returns the
same token and leaves the memo unchanged; the token has exactly the configured
fixed length of ten characters and only identifier-safe characters; and the
first call memoizes the token for the input. The digest hypothesis is the
interface contract of the external md5-base64 digest. -/
theorem fingerprint_props (digest : String → String) (input : String)
    (hdig : digestSpec digest) :
    (safeBase64Hash digest input (safeBase64Hash digest input []).2).1
        = (safeBase64Hash digest input []).1 ∧
    (safeBase64Hash digest input (safeBase64Hash digest input []).2).2
        = (safeBase64Hash digest input []).2 ∧
    (safeBase64Hash digest input []).1.data.length = hash_length ∧
    (∀ c ∈ (safeBase64Hash digest input []).1.data, isSafeChar c = true) ∧
    lookupAssoc (safeBase64Hash digest input []).2 input
        = some (safeBase64Hash digest input []).1 := by
  have h1 := safeBase64Hash_fresh digest input [] rfl
  have hlen : (safeBase64HashPure digest input).data.length = hash_length := by
    have h24 := (hdig input).1
    have hcnt := (hdig input).2.1
    have hts : ((toSafe (digest input)).data).length
        = (digest input).data.length - (digest input).data.countP (fun c => c == '=') :=
      filterMap_safeRepl_length (digest input).data
    show ((toSafe (digest input)).data.take hash_length).length = hash_length
    rw [List.length_take]
    unfold hash_length at *
    omega
  have hne : safeBase64HashPure digest input ≠ "" := by
    intro h
    rw [h] at hlen
    simp [hash_length] at hlen
  have h2 : safeBase64Hash digest input
      (insertAssoc [] input (safeBase64HashPure digest input)) =
      (safeBase64HashPure digest input,
        insertAssoc [] input (safeBase64HashPure digest input)) := by
    unfold safeBase64Hash
    rw [lookupAssoc_insert]
    simp [hne]
  rw [h1]
  simp only [h2]
  refine ⟨trivial, trivial, hlen, ?_, ?_⟩
  · intro c hc
    exact toSafe_chars (digest input) (hdig input).2.2 c (List.take_subset _ _ hc)
  · exact lookupAssoc_insert [] input _

/-- Witness for C7 with a concrete digest satisfying the digest contract. -/
theorem fingerprint_props_witness :
    ((safeBase64Hash (fun _ => "ABCDEFGHIJKLMNOPQRSTUV==") "src/app/index.html"
        (safeBase64Hash (fun _ => "ABCDEFGHIJKLMNOPQRSTUV==") "src/app/index.html" []).2).1
      = (safeBase64Hash (fun _ => "ABCDEFGHIJKLMNOPQRSTUV==") "src/app/index.html" []).1 ∧
    (safeBase64Hash (fun _ => "ABCDEFGHIJKLMNOPQRSTUV==") "src/app/index.html"
        (safeBase64Hash (fun _ => "ABCDEFGHIJKLMNOPQRSTUV==") "src/app/index.html" []).2).2
      = (safeBase64Hash (fun _ => "ABCDEFGHIJKLMNOPQRSTUV==") "src/app/index.html" []).2 ∧
    (safeBase64Hash (fun _ => "ABCDEFGHIJKLMNOPQRSTUV==") "src/app/index.html" []).1.data.length
      = hash_length ∧
    (∀ c ∈ (safeBase64Hash (fun _ => "ABCDEFGHIJKLMNOPQRSTUV==") "src/app/index.html" []).1.data,
        isSafeChar c = true) ∧
    lookupAssoc (safeBase64Hash (fun _ => "ABCDEFGHIJKLMNOPQRSTUV==") "src/app/index.html" []).2
        "src/app/index.html"
      = some (safeBase64Hash (fun _ => "ABCDEFGHIJKLMNOPQRSTUV==") "src/app/index.html" []).1) :=
  fingerprint_props (fun _ => "ABCDEFGHIJKLMNOPQRSTUV==") "src/app/index.html" digestSpec_const

/-- CLAIM C6 counterexample — the default componentName on the path of the
claim is not the bare parent directory name: `path.dirname` returns the whole
directory path. -/
theorem defaultComponentName_not_button :
    defaultComponentName "components/button/index.html" ≠ "button" := by decide

/-- CLAIM C6 amended — for the root-relative path of the claim the default
componentName returns the full directory path, and the scope token used by
compileTemplate is the fixed prefix letter e followed by the fingerprint of
the normalized root-stripped path. -/
theorem defaultComponentName_dirname_and_scope :
    defaultComponentName "components/button/index.html" = "components/button" ∧
    ∀ (env : Env) (options : EndorphinPluginOptions) (filePath : String),
      (templateCompileOpt env options (normalizeFilename env filePath env.root)).cssScope
        = "e" ++ safeBase64HashPure env.digest (normalizeFilename env filePath env.root) :=
  ⟨by decide, fun env options filePath => rfl⟩

/-! ## Concrete fixtures used by closed theorems and witnesses -/

/-- Concrete environment: every external collaborator is given a trivial
implementation. -/
def envX : Env :=
  { statIdent := fun _ => "1:1", readFile := fun _ => "", pathNormalize := fun p => p,
    parse := fun _ _ _ => ⟨[], [], []⟩, generate := fun _ _ => ⟨"", none, []⟩,
    sassCompile := fun s _ _ => ⟨s, none, []⟩, scopeCSS := fun c _ _ _ _ => .plain c,
    digest := fun _ => "ABCDEFGHIJKLMNOPQRSTUV==", b64 := fun s => s, root := "/proj" }

/-- Concrete options with the default naming function. -/
def optsX : EndorphinPluginOptions :=
  { componentName := some defaultComponentName }

/-- Template entry whose style list is empty: any componentStylesheet index
has no inline content on it. -/
def tmplNoStyles : TemplateCacheEntry :=
  { cacheKey := "1:1", styles := [], scripts := [], source := "", warnings := [],
    styleCache := [], code := "", map := none }

/-- Inline script resource carried by the fixture template below. -/
def scriptRes : ComponentResource :=
  ⟨"/proj/t.html", some "export const x = 1", some "ts"⟩

/-- Template entry holding one inline typescript script. -/
def tmplWithScript : TemplateCacheEntry :=
  { cacheKey := "1:1", styles := [], scripts := [scriptRes], source := "", warnings := [],
    styleCache := [], code := "", map := none }

/-- CLAIM C5 — a componentStylesheet request at an index with no inline
content produces no output and raises no fatal error, but emits ZERO
warnings, not one: the request returns with the state unchanged, warning
counter included, because the no-inline-stylesheet warning sits on the
unreachable branch where loadStylesheet returned nothing, while the
missing-content case falls through silently. -/
theorem missing_inline_stylesheet_no_warning :
    onLoadHtml envX optsX false none "/proj/t.html" "?type=componentStylesheet&i=0"
      ⟨[("/proj/t.html", tmplNoStyles)], ⟨[], 0⟩, 0, 0, 0⟩
      = (Except.ok none, ⟨[("/proj/t.html", tmplNoStyles)], ⟨[], 0⟩, 0, 0, 0⟩) := by
  rfl

/-- CLAIM C8 — a sub-resource request (nonempty suffix) fails with a fatal
error when no template entry exists for the path; and when the entry exists
and the componentScript index carries inline content, the stored script text
is returned with the ts loader for a declared ts or typescript dialect and
the js loader otherwise. -/
theorem subresource_guard_and_script_loader (env : Env) (options : EndorphinPluginOptions)
    (sourcemap : Bool) (classScope : Option String) (path suffix : String) (st : St) :
    (suffix ≠ "" → lookupAssoc st.templateCache path = none →
      (onLoadHtml env options sourcemap classScope path suffix st).1
        = Except.error ("Unable to find parsed tamplate for " ++ path)) ∧
    (∀ (tmpl : TemplateCacheEntry) (n : Nat) (script : ComponentResource) (c : String),
      suffix ≠ "" →
      lookupAssoc st.templateCache path = some tmpl →
      qget (parseQuery (stripQ suffix)) "type" = some "componentScript" →
      decodeIdx (parseQuery (stripQ suffix)) = some (Int.ofNat n) →
      tmpl.scripts[n]? = some script →
      script.content = some c → c ≠ "" →
      (onLoadHtml env options sourcemap classScope path suffix st).1
        = Except.ok (some { contents := c, warnings := [],
                            loader := if script.type = some "ts" ∨ script.type = some "typescript"
                              then "ts" else "js",
                            watchFiles := none })) := by
  constructor
  · intro hsuf hlk
    simp [onLoadHtml, if_pos hsuf, hlk]
  · intro tmpl n script c hsuf hlk htype hidx hscript hcontent hcne
    simp only [onLoadHtml, if_pos hsuf, hlk]
    simp only [onLoadHtmlSuffix, htype, hidx]
    rw [if_neg (by simp)]
    simp [indexGet, hscript, hcontent, truthyOpt, hcne]

/-- Witness for C8: the guard on an empty template cache, and the typed
loader on a concrete entry holding one inline typescript script. -/
theorem subresource_guard_and_script_loader_witness :
    (onLoadHtml envX optsX false none "/proj/t.html" "?type=componentScript&i=0"
        ⟨[], ⟨[], 0⟩, 0, 0, 0⟩).1
      = Except.error ("Unable to find parsed tamplate for " ++ "/proj/t.html") ∧
    (onLoadHtml envX optsX false none "/proj/t.html" "?type=componentScript&i=0"
        ⟨[("/proj/t.html", tmplWithScript)], ⟨[], 0⟩, 0, 0, 0⟩).1
      = Except.ok (some { contents := "export const x = 1", warnings := [],
                          loader := if scriptRes.type = some "ts" ∨ scriptRes.type = some "typescript"
                            then "ts" else "js",
                          watchFiles := none }) :=
  ⟨(subresource_guard_and_script_loader envX optsX false none "/proj/t.html"
      "?type=componentScript&i=0" ⟨[], ⟨[], 0⟩, 0, 0, 0⟩).1 (by decide) rfl,
   (subresource_guard_and_script_loader envX optsX false none "/proj/t.html"
      "?type=componentScript&i=0" ⟨[("/proj/t.html", tmplWithScript)], ⟨[], 0⟩, 0, 0, 0⟩).2
     tmplWithScript 0 scriptRes "export const x = 1"
     (by decide) rfl (by decide) (by decide) (by decide) rfl (by decide)⟩

/-! ## Cache behaviour of the load orchestrator -/

theorem loadStylesheet_post (env : Env) (sourcemap : Bool) (classScope : Option String)
    (url : String) (source : Option String) (ty : String) (st : LSState) :
    ((loadStylesheet env sourcemap classScope url source ty st).2.ks.fileKeyCache
        = st.ks.fileKeyCache) ∧
    ∃ e, (loadStylesheet env sourcemap classScope url source ty st).1 = some e ∧
      lookupAssoc (loadStylesheet env sourcemap classScope url source ty st).2.cache url
        = some e ∧
      validPure env.statIdent st.ks.fileKeyCache e
        (keyVal env.statIdent st.ks.fileKeyCache (splitUrl url).1) = true := by
  unfold loadStylesheet
  cases hlk : lookupAssoc st.cache url with
  | none =>
    simp only [hlk, Bool.false_eq_true, if_false]
    refine ⟨?_, _, rfl, lookupAssoc_insert _ _ _, ?_⟩
    · simp only [depsOf_fileKeyCache, getCacheKey_fileKeyCache]
    · unfold validPure
      simp only [getCacheKey_val, depsOf_val, getCacheKey_fileKeyCache]
      simp [List.all_eq_true]
  | some e =>
    by_cases hv : (isValidEntry env.statIdent e
        (getCacheKey env.statIdent (splitUrl url).1 st.ks).1
        (getCacheKey env.statIdent (splitUrl url).1 st.ks).2).1 = true
    · simp only [hlk, hv, if_true]
      refine ⟨?_, e, rfl, rfl, ?_⟩
      · simp only [isValidEntry_fileKeyCache, getCacheKey_fileKeyCache]
      · rw [isValidEntry_val] at hv
        rw [getCacheKey_fileKeyCache, getCacheKey_val] at hv
        exact hv
    · rw [Bool.not_eq_true] at hv
      simp only [hlk, hv, Bool.false_eq_true, if_false]
      refine ⟨?_, _, rfl, lookupAssoc_insert _ _ _, ?_⟩
      · simp only [depsOf_fileKeyCache, isValidEntry_fileKeyCache, getCacheKey_fileKeyCache]
      · unfold validPure
        simp only [getCacheKey_val, depsOf_val, isValidEntry_fileKeyCache,
          getCacheKey_fileKeyCache]
        simp [List.all_eq_true]

theorem loadStylesheet_idem (env : Env) (sourcemap : Bool) (classScope : Option String)
    (url : String) (source : Option String) (ty : String) (st : LSState) :
    (loadStylesheet env sourcemap classScope url source ty
        (loadStylesheet env sourcemap classScope url source ty st).2).1
      = (loadStylesheet env sourcemap classScope url source ty st).1 ∧
    (loadStylesheet env sourcemap classScope url source ty
        (loadStylesheet env sourcemap classScope url source ty st).2).2.cache
      = (loadStylesheet env sourcemap classScope url source ty st).2.cache ∧
    (loadStylesheet env sourcemap classScope url source ty
        (loadStylesheet env sourcemap classScope url source ty st).2).2.processCount
      = (loadStylesheet env sourcemap classScope url source ty st).2.processCount := by
  obtain ⟨hck, e, he1, hlk, hval⟩ := loadStylesheet_post env sourcemap classScope url source ty st
  set s1 := loadStylesheet env sourcemap classScope url source ty st with hs1
  have hv2 : (isValidEntry env.statIdent e
      (getCacheKey env.statIdent (splitUrl url).1 s1.2.ks).1
      (getCacheKey env.statIdent (splitUrl url).1 s1.2.ks).2).1 = true := by
    rw [isValidEntry_val, getCacheKey_fileKeyCache, getCacheKey_val, hck]
    exact hval
  unfold loadStylesheet
  rw [hlk]
  simp [hv2, he1]

theorem compileTemplate_cacheKey (env : Env) (options : EndorphinPluginOptions)
    (filePath : String) (cacheKey : String) :
    (compileTemplate env options filePath cacheKey).cacheKey = cacheKey := rfl

theorem compileTemplate_asCacheEntry_deps (env : Env) (options : EndorphinPluginOptions)
    (filePath : String) (cacheKey : String) :
    (compileTemplate env options filePath cacheKey).asCacheEntry.deps = none := rfl

theorem onLoadHtmlMain_post (env : Env) (options : EndorphinPluginOptions)
    (path : String) (st : St) :
    ((onLoadHtmlMain env options path st).2.ks.fileKeyCache = st.ks.fileKeyCache) ∧
    ∃ t : TemplateCacheEntry,
      lookupAssoc (onLoadHtmlMain env options path st).2.templateCache path = some t ∧
      (onLoadHtmlMain env options path st).1
        = Except.ok (some { contents := t.code, warnings := t.warnings,
                            loader := "js", watchFiles := none }) ∧
      validPure env.statIdent st.ks.fileKeyCache t.asCacheEntry
        (keyVal env.statIdent st.ks.fileKeyCache path) = true := by
  unfold onLoadHtmlMain
  cases hlk : lookupAssoc st.templateCache path with
  | none =>
    simp only [hlk]
    refine ⟨?_, _, lookupAssoc_insert _ _ _, rfl, ?_⟩
    · simp only [getCacheKey_fileKeyCache]
    · unfold validPure
      rw [compileTemplate_asCacheEntry_deps]
      simp [TemplateCacheEntry.asCacheEntry, compileTemplate_cacheKey, getCacheKey_val]
  | some t =>
    by_cases hv : (isValidEntry env.statIdent t.asCacheEntry
        (getCacheKey env.statIdent path st.ks).1
        (getCacheKey env.statIdent path st.ks).2).1 = true
    · simp only [hlk, hv, if_true]
      refine ⟨?_, t, rfl, rfl, ?_⟩
      · simp only [isValidEntry_fileKeyCache, getCacheKey_fileKeyCache]
      · rw [isValidEntry_val, getCacheKey_fileKeyCache, getCacheKey_val] at hv
        exact hv
    · rw [Bool.not_eq_true] at hv
      simp only [hlk, hv, Bool.false_eq_true, if_false]
      refine ⟨?_, _, lookupAssoc_insert _ _ _, rfl, ?_⟩
      · simp only [isValidEntry_fileKeyCache, getCacheKey_fileKeyCache]
      · unfold validPure
        rw [compileTemplate_asCacheEntry_deps]
        simp [TemplateCacheEntry.asCacheEntry, compileTemplate_cacheKey, getCacheKey_val]

theorem onLoadHtmlMain_idem (env : Env) (options : EndorphinPluginOptions)
    (path : String) (st : St) :
    (onLoadHtmlMain env options path (onLoadHtmlMain env options path st).2).1
      = (onLoadHtmlMain env options path st).1 ∧
    (onLoadHtmlMain env options path (onLoadHtmlMain env options path st).2).2.templateCache
      = (onLoadHtmlMain env options path st).2.templateCache ∧
    (onLoadHtmlMain env options path (onLoadHtmlMain env options path st).2).2.compileCount
      = (onLoadHtmlMain env options path st).2.compileCount := by
  obtain ⟨hck, t, hlk, hres, hval⟩ := onLoadHtmlMain_post env options path st
  set s1 := onLoadHtmlMain env options path st with hs1
  have hv2 : (isValidEntry env.statIdent t.asCacheEntry
      (getCacheKey env.statIdent path s1.2.ks).1
      (getCacheKey env.statIdent path s1.2.ks).2).1 = true := by
    rw [isValidEntry_val, getCacheKey_fileKeyCache, getCacheKey_val, hck]
    exact hval
  unfold onLoadHtmlMain
  rw [hlk]
  simp [hv2, hres]

/-- CLAIM C3 — loading an unchanged file twice is idempotent: with the
external collaborators fixed (unchanged file identities and dependency
identities), a second request for the same template path returns the same
response as the first with no new compileTemplate run, and a second
loadStylesheet call for the same url returns the same entry with no new
processStylesheet run — the second request is served from the cache entry
produced by the first. -/
theorem unchanged_load_idempotent (env : Env) (options : EndorphinPluginOptions)
    (path : String) (st : St) (sourcemap : Bool) (classScope : Option String)
    (url : String) (source : Option String) (ty : String) (lst : LSState) :
    ((onLoadHtmlMain env options path (onLoadHtmlMain env options path st).2).1
        = (onLoadHtmlMain env options path st).1 ∧
      (onLoadHtmlMain env options path (onLoadHtmlMain env options path st).2).2.compileCount
        = (onLoadHtmlMain env options path st).2.compileCount) ∧
    ((loadStylesheet env sourcemap classScope url source ty
        (loadStylesheet env sourcemap classScope url source ty lst).2).1
        = (loadStylesheet env sourcemap classScope url source ty lst).1 ∧
      (loadStylesheet env sourcemap classScope url source ty
        (loadStylesheet env sourcemap classScope url source ty lst).2).2.processCount
        = (loadStylesheet env sourcemap classScope url source ty lst).2.processCount) :=
  ⟨⟨(onLoadHtmlMain_idem env options path st).1,
    (onLoadHtmlMain_idem env options path st).2.2⟩,
   ⟨(loadStylesheet_idem env sourcemap classScope url source ty lst).1,
    (loadStylesheet_idem env sourcemap classScope url source ty lst).2.2⟩⟩

/-- CLAIM C9 — every entry produced by compileTemplate carries an empty style
sub-cache, and whenever the main-template path recompiles (missing or invalid
entry), the fresh entry replaces the old one in the template cache, so only
the fresh empty sub-cache is reachable afterwards. -/
theorem styleSubCache_fresh_on_recompile :
    (∀ (env : Env) (options : EndorphinPluginOptions) (filePath cacheKey : String),
      (compileTemplate env options filePath cacheKey).styleCache = []) ∧
    (∀ (env : Env) (options : EndorphinPluginOptions) (path : String) (st : St),
      (lookupAssoc st.templateCache path = none ∨
        (∀ t, lookupAssoc st.templateCache path = some t →
          validPure env.statIdent st.ks.fileKeyCache t.asCacheEntry
            (keyVal env.statIdent st.ks.fileKeyCache path) = false)) →
      lookupAssoc (onLoadHtmlMain env options path st).2.templateCache path
        = some (compileTemplate env options path
            (keyVal env.statIdent st.ks.fileKeyCache path)) ∧
      (compileTemplate env options path
          (keyVal env.statIdent st.ks.fileKeyCache path)).styleCache = []) := by
  constructor
  · intro env options filePath cacheKey
    rfl
  · intro env options path st h
    refine ⟨?_, rfl⟩
    unfold onLoadHtmlMain
    cases hlk : lookupAssoc st.templateCache path with
    | none =>
      simp only [hlk, getCacheKey_val]
      exact lookupAssoc_insert _ _ _
    | some t =>
      have hv : (isValidEntry env.statIdent t.asCacheEntry
          (keyVal env.statIdent st.ks.fileKeyCache path)
          (getCacheKey env.statIdent path st.ks).2).1 = false := by
        rcases h with h | h
        · rw [hlk] at h
          cases h
        · rw [isValidEntry_val, getCacheKey_fileKeyCache]
          exact h t hlk
      simp only [hlk, getCacheKey_val, hv, Bool.false_eq_true, if_false]
      exact lookupAssoc_insert _ _ _

/-- Witness for C9 on a concrete recompile triggered by an empty template cache. -/
theorem styleSubCache_fresh_on_recompile_witness :
    (compileTemplate envX optsX "/proj/t.html" "1:1").styleCache = [] ∧
    (lookupAssoc (onLoadHtmlMain envX optsX "/proj/t.html"
          ⟨[], ⟨[], 0⟩, 0, 0, 0⟩).2.templateCache "/proj/t.html"
        = some (compileTemplate envX optsX "/proj/t.html"
            (keyVal envX.statIdent (St.mk [] ⟨[], 0⟩ 0 0 0).ks.fileKeyCache "/proj/t.html")) ∧
      (compileTemplate envX optsX "/proj/t.html"
          (keyVal envX.statIdent (St.mk [] ⟨[], 0⟩ 0 0 0).ks.fileKeyCache "/proj/t.html")).styleCache
        = []) :=
  ⟨(styleSubCache_fresh_on_recompile).1 envX optsX "/proj/t.html" "1:1",
   (styleSubCache_fresh_on_recompile).2 envX optsX "/proj/t.html"
     ⟨[], ⟨[], 0⟩, 0, 0, 0⟩ (Or.inl rfl)⟩
